import Mathlib

/-!
# SoftwareRasterizer — verification of the rasterization core

A shallow embedding of `src/main.cpp` (MyForteIsTimeTravel/SoftwareRasterizer):
a single-triangle software rasterizer that casts one ray per pixel along +z,
tests it against the triangle's plane, derives barycentric weights, and writes
the interpolated color into a flat framebuffer, which is finally serialized as
a plain-text PPM (P3) image.

`float` arithmetic is embedded as exact rational arithmetic (`ℚ`); the source's
literals (`1e-7f`, `1e-10`, `0.1f`, `255`) become the corresponding rationals.
A separate small model (`Option ℚ`, with `none` playing the role of IEEE NaN:
NaN-propagating arithmetic, all ordered comparisons involving NaN false) is
used where a claim is specifically about NaN behavior.
-/

/-! ## vec3 operations (main.cpp lines 24–34) -/

/-- `typedef std::array<float, 3> vec3` — a 3-component vector. -/
structure vec3 where
  x : ℚ
  y : ℚ
  z : ℚ
deriving DecidableEq, Repr

instance : Inhabited vec3 := ⟨⟨0, 0, 0⟩⟩

/-- componentwise `operator+`. -/
instance : Add vec3 := ⟨fun l r => ⟨l.x + r.x, l.y + r.y, l.z + r.z⟩⟩

/-- componentwise `operator-`. -/
instance : Sub vec3 := ⟨fun l r => ⟨l.x - r.x, l.y - r.y, l.z - r.z⟩⟩

/-- `operator* (vec3, float)` — scaling by a scalar on the right. -/
instance : HMul vec3 ℚ vec3 := ⟨fun l s => ⟨l.x * s, l.y * s, l.z * s⟩⟩

/-- `cross` product (main.cpp line 31). -/
def cross (l r : vec3) : vec3 :=
  ⟨l.y * r.z - l.z * r.y, l.z * r.x - l.x * r.z, l.x * r.y - l.y * r.x⟩

/-- `dot` product (main.cpp line 33). -/
def dot (l r : vec3) : ℚ :=
  l.x * r.x + l.y * r.y + l.z * r.z

/-! ## Tolerance thresholds (main.cpp lines 16–17) -/

/-- `static const float eps1 = 1e-7f` — degeneracy threshold on the determinant. -/
def eps1 : ℚ := 1e-7

/-- `static const float eps2 = 1e-10` — negative tolerance on barycentric weights. -/
def eps2 : ℚ := 1e-10

/-! ## Framebuffer abstraction (`struct Frame`, main.cpp lines 42–72) -/

/-- `struct Frame`: fixed dimensions plus a flat `std::vector<vec3>` buffer. -/
structure Frame where
  WIDTH : ℕ
  HEIGHT : ℕ
  buffer : List vec3
deriving Repr

/-- The `Frame` constructor: `buffer.assign(WIDTH * HEIGHT, fill)`. -/
def Frame.create (width height : ℕ) (fill : vec3) : Frame :=
  ⟨width, height, List.replicate (width * height) fill⟩

/-- `setPixel`: `buffer[x + y * WIDTH] = colour` (unchecked in the source). -/
def Frame.setPixel (f : Frame) (x y : ℕ) (colour : vec3) : Frame :=
  { f with buffer := f.buffer.set (x + y * f.WIDTH) colour }

/-- `getPixel`: `return buffer[x + y * WIDTH]` (unchecked in the source). -/
def Frame.getPixel (f : Frame) (x y : ℕ) : vec3 :=
  f.buffer.getD (x + y * f.WIDTH) default

/-! ## Triangle (main.cpp lines 90–97) -/

/-- `struct Triangle`: three vertex positions and three vertex colors
(`vertices[i]`/`colors[i]` become `vertexI`/`colorI`). -/
structure Triangle where
  vertex0 : vec3
  vertex1 : vec3
  vertex2 : vec3
  color0 : vec3
  color1 : vec3
  color2 : vec3
deriving DecidableEq, Repr

/-! ## The per-pixel intersection kernel (main.cpp lines 104–143)

Each intermediate of the loop body becomes a definition; quantities that do not
depend on the pixel (`u`, `v`, `n`, `a`) take only the triangle. -/

/-- `dir = { 0, 0, 1 }` — the ray direction of every pixel's ray. -/
def rayDir : vec3 := ⟨0, 0, 1⟩

/-- `pix = { (float)x, (float)y, 0 }` — the ray origin for pixel (x,y). -/
def pix (x y : ℕ) : vec3 := ⟨(x : ℚ), (y : ℚ), 0⟩

/-- `u = tri.vertices[1] - tri.vertices[0]`. -/
def triU (tri : Triangle) : vec3 := tri.vertex1 - tri.vertex0

/-- `v = tri.vertices[2] - tri.vertices[0]`. -/
def triV (tri : Triangle) : vec3 := tri.vertex2 - tri.vertex0

/-- `n = cross(dir, v)`. -/
def triN (tri : Triangle) : vec3 := cross rayDir (triV tri)

/-- `a = dot(u, n)` — the determinant; pixel-independent. -/
def detA (tri : Triangle) : ℚ := dot (triU tri) (triN tri)

/-- `s = pix - tri.vertices[0]`. -/
def pixS (tri : Triangle) (x y : ℕ) : vec3 := pix x y - tri.vertex0

/-- `r = cross(s, u)`. -/
def pixR (tri : Triangle) (x y : ℕ) : vec3 := cross (pixS tri x y) (triU tri)

/-- `d = dot(v, r) / a` — the ray parameter of the plane intersection. -/
def rayD (tri : Triangle) (x y : ℕ) : ℚ := dot (triV tri) (pixR tri x y) / detA tri

/-- `barycentrics[1] = dot(s, n) / a`. -/
def baryBeta (tri : Triangle) (x y : ℕ) : ℚ := dot (pixS tri x y) (triN tri) / detA tri

/-- `barycentrics[2] = dot(dir, r) / a`. -/
def baryGamma (tri : Triangle) (x y : ℕ) : ℚ := dot rayDir (pixR tri x y) / detA tri

/-- `barycentrics[0] = 1.0f - (barycentrics[1] + barycentrics[2])`. -/
def baryAlpha (tri : Triangle) (x y : ℕ) : ℚ :=
  1 - (baryBeta tri x y + baryGamma tri x y)

/-- `bool zeroArea = (a <= eps1)`. -/
def zeroArea (tri : Triangle) : Bool := decide (detA tri ≤ eps1)

/-- `bool offAlpha = (barycentrics[0] < -eps2)`. -/
def offAlpha (tri : Triangle) (x y : ℕ) : Bool := decide (baryAlpha tri x y < -eps2)

/-- `bool offBeta = (barycentrics[1] < -eps2)`. -/
def offBeta (tri : Triangle) (x y : ℕ) : Bool := decide (baryBeta tri x y < -eps2)

/-- `bool offGamma = (barycentrics[2] < -eps2)`. -/
def offGamma (tri : Triangle) (x y : ℕ) : Bool := decide (baryGamma tri x y < -eps2)

/-- The guard of the write (main.cpp line 135):
`!(zeroArea || offAlpha || offBeta || offGamma || (d <= 0.1f))`. -/
def covered (tri : Triangle) (x y : ℕ) : Bool :=
  !(zeroArea tri || offAlpha tri x y || offBeta tri x y || offGamma tri x y ||
    decide (rayD tri x y ≤ 1/10))

/-- The color written on a hit (main.cpp lines 138–140):
`colors[0]*α + colors[1]*β + colors[2]*γ`. -/
def shade (tri : Triangle) (x y : ℕ) : vec3 :=
  tri.color0 * baryAlpha tri x y + tri.color1 * baryBeta tri x y +
    tri.color2 * baryGamma tri x y

/-- One iteration of the pixel loop body: write the shaded color iff covered. -/
def rasterizePixel (tri : Triangle) (f : Frame) (x y : ℕ) : Frame :=
  if covered tri x y then f.setPixel x y (shade tri x y) else f

/-- The raster loop (main.cpp lines 102–143): `for y in [0,HEIGHT) for x in [0,WIDTH)`,
with the loop bounds taken from the (const) dimensions of the initial frame. -/
def rasterize (tri : Triangle) (f : Frame) : Frame :=
  (List.range f.HEIGHT).foldl
    (fun acc y => (List.range f.WIDTH).foldl
      (fun acc2 x => rasterizePixel tri acc2 x y) acc)
    f

/-- The divisors of the divisions by `a` that the loop body performs for one
pixel, in source order: `d`, `barycentrics[1]`, `barycentrics[2]` (main.cpp
lines 121–125) each divide by `a` unconditionally, before any degeneracy test,
so every pixel performs exactly these three divisions by `a`. -/
def pixelDivisions (tri : Triangle) (_x _y : ℕ) : List ℚ :=
  [detA tri, detA tri, detA tri]

/-! ## NaN-aware model of the kernel

`float` values are modelled as `Option ℚ`: `none` plays the role of IEEE NaN.
Arithmetic propagates NaN; an ordered comparison with a NaN operand is false
(the IEEE semantics the source's `<`/`<=` on `float` have). Division yields a
rational only for a nonzero rational divisor (`x/0` is ±inf or NaN, never a
rational, and is never compared directly in the kernel's guarded path). -/

/-- NaN-propagating addition. -/
def fadd : Option ℚ → Option ℚ → Option ℚ
  | some a, some b => some (a + b)
  | _, _ => none

/-- NaN-propagating subtraction. -/
def fsub : Option ℚ → Option ℚ → Option ℚ
  | some a, some b => some (a - b)
  | _, _ => none

/-- NaN-propagating multiplication. -/
def fmul : Option ℚ → Option ℚ → Option ℚ
  | some a, some b => some (a * b)
  | _, _ => none

/-- NaN-propagating division; a zero divisor yields a non-rational (±inf/NaN). -/
def fdiv : Option ℚ → Option ℚ → Option ℚ
  | some a, some b => if b = 0 then none else some (a / b)
  | _, _ => none

/-- IEEE `<=`: false whenever an operand is NaN. -/
def fle : Option ℚ → Option ℚ → Bool
  | some a, some b => decide (a ≤ b)
  | _, _ => false

/-- IEEE `<`: false whenever an operand is NaN. -/
def flt : Option ℚ → Option ℚ → Bool
  | some a, some b => decide (a < b)
  | _, _ => false

/-- A 3-vector of possibly-NaN floats. -/
structure vec3F where
  x : Option ℚ
  y : Option ℚ
  z : Option ℚ
deriving DecidableEq, Repr

/-- componentwise subtraction on possibly-NaN vectors. -/
def subF (l r : vec3F) : vec3F := ⟨fsub l.x r.x, fsub l.y r.y, fsub l.z r.z⟩

/-- `cross` on possibly-NaN vectors. -/
def crossF (l r : vec3F) : vec3F :=
  ⟨fsub (fmul l.y r.z) (fmul l.z r.y),
   fsub (fmul l.z r.x) (fmul l.x r.z),
   fsub (fmul l.x r.y) (fmul l.y r.x)⟩

/-- `dot` on possibly-NaN vectors. -/
def dotF (l r : vec3F) : Option ℚ :=
  fadd (fadd (fmul l.x r.x) (fmul l.y r.y)) (fmul l.z r.z)

/-- A triangle whose coordinates may be NaN. -/
structure TriangleF where
  vertex0 : vec3F
  vertex1 : vec3F
  vertex2 : vec3F
deriving DecidableEq, Repr

/-- `dir` in the NaN model. -/
def rayDirF : vec3F := ⟨some 0, some 0, some 1⟩

/-- `pix` in the NaN model. -/
def pixF (x y : ℕ) : vec3F := ⟨some (x : ℚ), some (y : ℚ), some 0⟩

/-- The coverage test of main.cpp lines 104–135 computed with NaN-aware floats:
identical structure to `covered`, with each comparison false on NaN. -/
def coveredF (tri : TriangleF) (x y : ℕ) : Bool :=
  let u := subF tri.vertex1 tri.vertex0
  let v := subF tri.vertex2 tri.vertex0
  let n := crossF rayDirF v
  let a := dotF u n
  let s := subF (pixF x y) tri.vertex0
  let r := crossF s u
  let d := fdiv (dotF v r) a
  let beta := fdiv (dotF s n) a
  let gamma := fdiv (dotF rayDirF r) a
  let alpha := fsub (some 1) (fadd beta gamma)
  !(fle a (some eps1) || flt alpha (some (-eps2)) || flt beta (some (-eps2)) ||
    flt gamma (some (-eps2)) || fle d (some (1/10)))

/-! ## PPM export (`Frame::writeBuffer`, main.cpp lines 58–70) -/

/-- C++ `(int)` conversion of a value: truncation toward zero. -/
def truncToInt (q : ℚ) : ℤ := if 0 ≤ q then ⌊q⌋ else ⌈q⌉

/-- One emitted channel: `(int)(component * 255)` — no rounding, no clamping. -/
def channelOut (c : ℚ) : ℤ := truncToInt (c * 255)

/-- The character stream `writeBuffer` sends to the output file: the header
`"P3 WIDTH HEIGHT 255"` plus `std::endl`, then for `y` from `HEIGHT-1` down to
`0` and `x` from `0` to `WIDTH-1` the three channels of `getPixel(x,y)`, the
first two followed by a space, the third by `std::endl`. -/
def Frame.writeBuffer (f : Frame) : String :=
  (List.range f.HEIGHT).reverse.foldl
    (fun acc y => (List.range f.WIDTH).foldl
      (fun acc2 x =>
        acc2 ++ toString (channelOut (f.getPixel x y).x) ++ " "
             ++ toString (channelOut (f.getPixel x y).y) ++ " "
             ++ toString (channelOut (f.getPixel x y).z) ++ "\n")
      acc)
    ("P3 " ++ toString f.WIDTH ++ " " ++ toString f.HEIGHT ++ " 255" ++ "\n")

/-- Modelled from the claim's words (C7): the emitted image as a list of lines —
a header line with the format tag, width, height and max channel value 255,
followed by the pixel triples in scanline order from row `height-1` first down
to row `0`, left to right within each row, each channel the integer obtained by
multiplying the stored component by 255 and truncating toward zero. -/
def writeImageSpec (f : Frame) : List String :=
  ("P3 " ++ toString f.WIDTH ++ " " ++ toString f.HEIGHT ++ " 255") ::
  ((List.range f.HEIGHT).reverse.map (fun y =>
    (List.range f.WIDTH).map (fun x =>
      toString (truncToInt ((f.getPixel x y).x * 255)) ++ " " ++
      toString (truncToInt ((f.getPixel x y).y * 255)) ++ " " ++
      toString (truncToInt ((f.getPixel x y).z * 255))))).flatten

/-! ## The coordinate pairs at which the program touches the buffer -/

/-- The `(x, y)` pairs at which the raster loop (main.cpp lines 102–103)
calls `setPixel`: `y` over `[0, HEIGHT)`, `x` over `[0, WIDTH)`. -/
def rasterAccesses (W H : ℕ) : List (ℕ × ℕ) :=
  (List.range H).flatMap (fun y => (List.range W).map (fun x => (x, y)))

/-- The `(x, y)` pairs at which `writeBuffer` (main.cpp lines 62–68) calls
`getPixel`: `y` from `HEIGHT-1` down to `0`, `x` over `[0, WIDTH)`. -/
def writeAccesses (W H : ℕ) : List (ℕ × ℕ) :=
  (List.range H).reverse.flatMap (fun y => (List.range W).map (fun x => (x, y)))

/-! ## Basic lemmas about the framebuffer and the raster loop -/

/-- Flat indexing is injective on in-range columns. -/
theorem pixelIndex_inj {W x x' y y' : ℕ} (hx : x < W) (hx' : x' < W)
    (h : x + y * W = x' + y' * W) : x = x' ∧ y = y' := by
  have hW : 0 < W := Nat.lt_of_le_of_lt (Nat.zero_le x) hx
  have hxx : (x + y * W) % W = x := by
    rw [Nat.add_mul_mod_self_right, Nat.mod_eq_of_lt hx]
  have hxx' : (x' + y' * W) % W = x' := by
    rw [Nat.add_mul_mod_self_right, Nat.mod_eq_of_lt hx']
  have hx_eq : x = x' := by rw [← hxx, ← hxx', h]
  refine ⟨hx_eq, ?_⟩
  have hmul : y * W = y' * W := by omega
  exact Nat.eq_of_mul_eq_mul_right hW hmul

/-- In-range coordinates produce an in-range flat index. -/
theorem pixelIndex_lt {W H x y : ℕ} (hx : x < W) (hy : y < H) :
    x + y * W < W * H := by
  calc x + y * W < W + y * W := by omega
    _ = (y + 1) * W := by ring
    _ ≤ H * W := Nat.mul_le_mul_right W (Nat.succ_le_of_lt hy)
    _ = W * H := Nat.mul_comm H W

theorem Frame.setPixel_WIDTH (f : Frame) (x y : ℕ) (c : vec3) :
    (f.setPixel x y c).WIDTH = f.WIDTH := rfl

theorem Frame.setPixel_HEIGHT (f : Frame) (x y : ℕ) (c : vec3) :
    (f.setPixel x y c).HEIGHT = f.HEIGHT := rfl

theorem Frame.setPixel_length (f : Frame) (x y : ℕ) (c : vec3) :
    (f.setPixel x y c).buffer.length = f.buffer.length :=
  List.length_set f.buffer _ c

/-- Reading back the cell just written returns the written color. -/
theorem Frame.getPixel_setPixel_self (f : Frame) (x y : ℕ) (c : vec3)
    (h : x + y * f.WIDTH < f.buffer.length) :
    (f.setPixel x y c).getPixel x y = c := by
  unfold Frame.getPixel Frame.setPixel
  simp only [List.getD_eq_getElem?_getD, List.getElem?_set_eq_of_lt c h,
    Option.getD_some]

/-- Writing one in-range cell leaves every other in-range cell unchanged. -/
theorem Frame.getPixel_setPixel_ne (f : Frame) {x y x' y' : ℕ} (c : vec3)
    (hx : x < f.WIDTH) (hx' : x' < f.WIDTH) (hne : ¬(x' = x ∧ y' = y)) :
    (f.setPixel x y c).getPixel x' y' = f.getPixel x' y' := by
  have hidx : x + y * f.WIDTH ≠ x' + y' * f.WIDTH := by
    intro h
    exact hne ⟨(pixelIndex_inj hx hx' h).1.symm, (pixelIndex_inj hx hx' h).2.symm⟩
  unfold Frame.getPixel Frame.setPixel
  simp only [List.getD_eq_getElem?_getD, List.getElem?_set_ne hidx]

theorem Frame.create_WIDTH (W H : ℕ) (fill : vec3) :
    (Frame.create W H fill).WIDTH = W := rfl

theorem Frame.create_HEIGHT (W H : ℕ) (fill : vec3) :
    (Frame.create W H fill).HEIGHT = H := rfl

theorem Frame.create_length (W H : ℕ) (fill : vec3) :
    (Frame.create W H fill).buffer.length = W * H :=
  List.length_replicate (W * H) fill

/-- Every in-range cell of a fresh frame holds the fill color. -/
theorem Frame.getPixel_create (W H : ℕ) (fill : vec3) {x y : ℕ}
    (h : x + y * W < W * H) : (Frame.create W H fill).getPixel x y = fill := by
  unfold Frame.getPixel Frame.create
  simp only [List.getD_eq_getElem?_getD, List.getElem?_replicate, h, if_true,
    Option.getD_some]

theorem rasterizePixel_WIDTH (tri : Triangle) (f : Frame) (x y : ℕ) :
    (rasterizePixel tri f x y).WIDTH = f.WIDTH := by
  unfold rasterizePixel; split <;> rfl

theorem rasterizePixel_length (tri : Triangle) (f : Frame) (x y : ℕ) :
    (rasterizePixel tri f x y).buffer.length = f.buffer.length := by
  unfold rasterizePixel; split
  · exact Frame.setPixel_length f x y _
  · rfl

/-- One loop-body iteration at a different in-range pixel does not change
the cell at `(x', y')`. -/
theorem getPixel_rasterizePixel_ne (tri : Triangle) (f : Frame) {x y x' y' : ℕ}
    (hx : x < f.WIDTH) (hx' : x' < f.WIDTH) (hne : ¬(x' = x ∧ y' = y)) :
    (rasterizePixel tri f x y).getPixel x' y' = f.getPixel x' y' := by
  unfold rasterizePixel; split
  · exact Frame.getPixel_setPixel_ne f _ hx hx' hne
  · rfl

/-- One loop-body iteration at `(x, y)` leaves there the shaded color when
covered and the old value otherwise. -/
theorem getPixel_rasterizePixel_self (tri : Triangle) (f : Frame) {x y : ℕ}
    (h : x + y * f.WIDTH < f.buffer.length) :
    (rasterizePixel tri f x y).getPixel x y =
      if covered tri x y then shade tri x y else f.getPixel x y := by
  unfold rasterizePixel
  split
  · exact Frame.getPixel_setPixel_self f x y _ h
  · rfl

/-- Effect of one row of the raster loop on the cell at `(x, y)`: the row at
scanline `y'` writes `(x, y)` (to the shaded color, when covered) iff `y' = y`
and `x` is among the traversed columns; otherwise the cell is untouched. -/
theorem getPixel_foldRow (tri : Triangle) (y' x y : ℕ) (xs : List ℕ) :
    ∀ (f : Frame), (∀ z ∈ xs, z < f.WIDTH) → x < f.WIDTH →
      x + y * f.WIDTH < f.buffer.length →
      (xs.foldl (fun acc2 xx => rasterizePixel tri acc2 xx y') f).getPixel x y =
        if y' = y ∧ x ∈ xs then
          (if covered tri x y then shade tri x y else f.getPixel x y)
        else f.getPixel x y := by
  induction xs with
  | nil => intro f _ _ _; simp
  | cons z zs ih =>
    intro f hzs hx hidx
    have hzW : z < f.WIDTH := hzs z (List.mem_cons_self z zs)
    have hW' : (rasterizePixel tri f z y').WIDTH = f.WIDTH :=
      rasterizePixel_WIDTH tri f z y'
    have hlen' : (rasterizePixel tri f z y').buffer.length = f.buffer.length :=
      rasterizePixel_length tri f z y'
    rw [List.foldl_cons,
      ih (rasterizePixel tri f z y')
        (fun w hw => hW' ▸ hzs w (List.mem_cons_of_mem z hw))
        (hW' ▸ hx) (by rw [hW', hlen']; exact hidx)]
    by_cases hyy : y' = y
    · subst hyy
      by_cases hzx : z = x
      · subst hzx
        rw [getPixel_rasterizePixel_self tri f hidx]
        by_cases hcov : covered tri z y' <;>
          simp [hcov, List.mem_cons]
      · rw [getPixel_rasterizePixel_ne tri f hzW hx
          (fun hc => hzx hc.1.symm)]
        have hxz : ¬x = z := fun hc => hzx hc.symm
        simp [List.mem_cons, hxz]
    · rw [getPixel_rasterizePixel_ne tri f hzW hx
        (fun hc => hyy hc.2.symm)]
      simp [hyy]

/-- A row of the raster loop does not change the frame's width. -/
theorem foldRow_WIDTH (tri : Triangle) (y' : ℕ) (xs : List ℕ) :
    ∀ f : Frame,
      (xs.foldl (fun acc2 xx => rasterizePixel tri acc2 xx y') f).WIDTH = f.WIDTH := by
  induction xs with
  | nil => intro f; rfl
  | cons z zs ih =>
    intro f
    rw [List.foldl_cons, ih]
    exact rasterizePixel_WIDTH tri f z y'

/-- A row of the raster loop does not change the buffer length. -/
theorem foldRow_length (tri : Triangle) (y' : ℕ) (xs : List ℕ) :
    ∀ f : Frame,
      (xs.foldl (fun acc2 xx => rasterizePixel tri acc2 xx y') f).buffer.length =
        f.buffer.length := by
  induction xs with
  | nil => intro f; rfl
  | cons z zs ih =>
    intro f
    rw [List.foldl_cons, ih]
    exact rasterizePixel_length tri f z y'

/-- Effect of a sequence of full rows of the raster loop on the cell at
`(x, y)` with `x` in range: written (to the shaded color, when covered) iff
`y` is among the traversed scanlines. -/
theorem getPixel_foldRows (tri : Triangle) (W x y : ℕ) (ys : List ℕ) :
    ∀ (f : Frame), f.WIDTH = W → x < W → x + y * W < f.buffer.length →
      ((ys.foldl (fun acc yy => (List.range W).foldl
          (fun acc2 xx => rasterizePixel tri acc2 xx yy) acc) f).getPixel x y) =
        if y ∈ ys then
          (if covered tri x y then shade tri x y else f.getPixel x y)
        else f.getPixel x y := by
  induction ys with
  | nil => intro f _ _ _; simp
  | cons yy ys ih =>
    intro f hW hx hidx
    have hW' : ((List.range W).foldl
        (fun acc2 xx => rasterizePixel tri acc2 xx yy) f).WIDTH = f.WIDTH :=
      foldRow_WIDTH tri yy (List.range W) f
    have hlen' : ((List.range W).foldl
        (fun acc2 xx => rasterizePixel tri acc2 xx yy) f).buffer.length =
          f.buffer.length :=
      foldRow_length tri yy (List.range W) f
    have hrow := getPixel_foldRow tri yy x y (List.range W) f
      (fun z hz => by rw [hW]; exact List.mem_range.mp hz)
      (by rw [hW]; exact hx) (by rw [hW]; exact hidx)
    rw [List.foldl_cons,
      ih _ (by rw [hW', hW]) hx (by rw [hlen']; exact hidx), hrow]
    by_cases hyy : yy = y
    · subst hyy
      have hmem : x ∈ List.range W := List.mem_range.mpr hx
      by_cases hcov : covered tri x yy <;> simp [hcov, hmem]
    · have hyy' : ¬y = yy := fun hc => hyy hc.symm
      simp [hyy', hyy]

/-- Pointwise characterization of the raster loop: at every in-range pixel of
a well-formed frame, the rasterized frame holds the shaded color when the
pixel is covered and the frame's previous value otherwise. -/
theorem getPixel_rasterize (tri : Triangle) (f : Frame) {x y : ℕ}
    (hx : x < f.WIDTH) (hy : y < f.HEIGHT)
    (hlen : f.buffer.length = f.WIDTH * f.HEIGHT) :
    (rasterize tri f).getPixel x y =
      if covered tri x y then shade tri x y else f.getPixel x y := by
  unfold rasterize
  rw [getPixel_foldRows tri f.WIDTH x y (List.range f.HEIGHT) f rfl hx
    (by rw [hlen]; exact pixelIndex_lt hx hy)]
  rw [if_pos (List.mem_range.mpr hy)]

/-! ## Definitional component lemmas and concrete test data -/

theorem vec3.add_def (l r : vec3) : l + r = ⟨l.x + r.x, l.y + r.y, l.z + r.z⟩ := rfl

theorem vec3.sub_def (l r : vec3) : l - r = ⟨l.x - r.x, l.y - r.y, l.z - r.z⟩ := rfl

theorem vec3.smul_def (l : vec3) (s : ℚ) : l * s = ⟨l.x * s, l.y * s, l.z * s⟩ := rfl

/-- The determinant is minus the z-component of `u × v` — minus (twice) the
signed area of the triangle projected along the ray direction. -/
theorem detA_eq_neg_crossZ (tri : Triangle) :
    detA tri = -((cross (triU tri) (triV tri)).z) := by
  simp only [detA, triN, dot, cross, rayDir]
  ring

/-- A small test triangle: vertices `(0,0,1)`, `(0,2,1)`, `(2,0,1)` with
red/green/blue vertex colors; its projection covers pixel `(1,0)`. -/
def triW : Triangle := ⟨⟨0, 0, 1⟩, ⟨0, 2, 1⟩, ⟨2, 0, 1⟩, ⟨1, 0, 0⟩, ⟨0, 1, 0⟩, ⟨0, 0, 1⟩⟩

/-- A degenerate test triangle: `vertices[0] = vertices[1]`. -/
def triDeg : Triangle := ⟨⟨0, 0, 1⟩, ⟨0, 0, 1⟩, ⟨2, 0, 1⟩, ⟨1, 0, 0⟩, ⟨0, 1, 0⟩, ⟨0, 0, 1⟩⟩

/-- The program's test triangle with a NaN injected into `vertices[0].x`
(positions from main.cpp lines 95–97). -/
def nanTri : TriangleF :=
  ⟨⟨none, some 80, some 100⟩, ⟨some 160, some 800, some 100⟩, ⟨some 480, some 320, some 100⟩⟩

/-! ## C8 -/

/-- C8: for every pixel at which barycentric weights are derived, the three
weights sum to exactly 1, because `barycentrics[0]` is computed as
`1 - (barycentrics[1] + barycentrics[2])` rather than measured independently. -/
theorem bary_sum_one (tri : Triangle) (x y : ℕ) :
    baryAlpha tri x y + baryBeta tri x y + baryGamma tri x y = 1 := by
  unfold baryAlpha
  ring

/-! ## C1 -/

/-- C1: a pixel is classified covered iff the determinant
`a = dot(u, cross(rayDirection, v))` exceeds the degeneracy threshold `1e-7`,
each barycentric weight is at least `-1e-10`, and the ray parameter
`d = dot(v, r)/a` is strictly greater than `0.1`; and the rasterized frame
holds the shaded color at the pixel exactly when it is covered, the previous
value otherwise. -/
theorem covered_classification (tri : Triangle) (f : Frame) (x y : ℕ)
    (hx : x < f.WIDTH) (hy : y < f.HEIGHT)
    (hlen : f.buffer.length = f.WIDTH * f.HEIGHT) :
    (covered tri x y = true ↔
      (1e-7 < detA tri ∧ -(1e-10) ≤ baryAlpha tri x y ∧ -(1e-10) ≤ baryBeta tri x y ∧
        -(1e-10) ≤ baryGamma tri x y ∧ (1/10 : ℚ) < rayD tri x y)) ∧
    (rasterize tri f).getPixel x y =
      (if covered tri x y then shade tri x y else f.getPixel x y) := by
  refine ⟨?_, getPixel_rasterize tri f hx hy hlen⟩
  unfold covered zeroArea offAlpha offBeta offGamma eps1 eps2
  simp only [Bool.not_eq_true', Bool.or_eq_false_iff, decide_eq_false_iff_not,
    not_le, not_lt]
  tauto

/-- Witness for C1 at the concrete triangle `triW`, a 2×2 frame and
pixel `(1, 0)`. -/
theorem covered_classification_witness :
    (covered triW 1 0 = true ↔
      (1e-7 < detA triW ∧ -(1e-10) ≤ baryAlpha triW 1 0 ∧ -(1e-10) ≤ baryBeta triW 1 0 ∧
        -(1e-10) ≤ baryGamma triW 1 0 ∧ (1/10 : ℚ) < rayD triW 1 0)) ∧
    (rasterize triW (Frame.create 2 2 ⟨0, 0, 0⟩)).getPixel 1 0 =
      (if covered triW 1 0 then shade triW 1 0
       else (Frame.create 2 2 ⟨0, 0, 0⟩).getPixel 1 0) :=
  covered_classification triW (Frame.create 2 2 ⟨0, 0, 0⟩) 1 0
    (by decide) (by decide) rfl

/-! ## C2 -/

/-- C2: every covered pixel receives exactly the componentwise affine
combination `color0·α + color1·β + color2·γ` of the vertex colors, with no
clamping. -/
theorem covered_pixel_color (tri : Triangle) (f : Frame) (x y : ℕ)
    (hx : x < f.WIDTH) (hy : y < f.HEIGHT)
    (hlen : f.buffer.length = f.WIDTH * f.HEIGHT)
    (hcov : covered tri x y = true) :
    (rasterize tri f).getPixel x y =
      tri.color0 * baryAlpha tri x y + tri.color1 * baryBeta tri x y +
        tri.color2 * baryGamma tri x y := by
  rw [getPixel_rasterize tri f hx hy hlen, if_pos hcov]
  rfl

/-- Witness for C2: pixel `(1,0)` of a 2×2 frame is covered by `triW` and is
shaded `(1/2, 0, 1/2)`. -/
theorem covered_pixel_color_witness :
    covered triW 1 0 = true ∧
    (rasterize triW (Frame.create 2 2 ⟨0, 0, 0⟩)).getPixel 1 0 =
      triW.color0 * baryAlpha triW 1 0 + triW.color1 * baryBeta triW 1 0 +
        triW.color2 * baryGamma triW 1 0 := by
  have hcov : covered triW 1 0 = true := by
    norm_num [covered, zeroArea, offAlpha, offBeta, offGamma, detA, baryAlpha, baryBeta,
      baryGamma, rayD, triU, triV, triN, pixS, pixR, pix, rayDir, cross, dot, eps1, eps2,
      triW, vec3.sub_def]
  exact ⟨hcov,
    covered_pixel_color triW (Frame.create 2 2 ⟨0, 0, 0⟩) 1 0 (by decide) (by decide)
      rfl hcov⟩

/-! ## C3 -/

/-- C3 counterexample: at the degenerate triangle `triDeg` (determinant
`a = 0 ≤ 1e-7`) pixel `(0,0)` is indeed skipped, yet the loop body still
performs its three divisions by `a` — `pixelDivisions` lists three divisors
`0`, refuting "no division by `a` is attempted for that pixel". -/
theorem division_attempted_despite_degeneracy :
    covered triDeg 0 0 = false ∧ pixelDivisions triDeg 0 0 = [0, 0, 0] := by
  constructor
  · norm_num [covered, zeroArea, offAlpha, offBeta, offGamma, detA, baryAlpha, baryBeta,
      baryGamma, rayD, triU, triV, triN, pixS, pixR, pix, rayDir, cross, dot, eps1, eps2,
      triDeg, vec3.sub_def]
  · norm_num [pixelDivisions, detA, triU, triV, triN, pixS, pixR, pix, rayDir, cross,
      dot, triDeg, vec3.sub_def]

/-- C3 (amended): whenever the determinant `a` is at most `1e-7`, the pixel is
classified as not covered and the rasterized frame leaves its value untouched
(the three divisions by `a` are still performed, but their results are
discarded). -/
theorem degenerate_pixel_skipped (tri : Triangle) (f : Frame) (x y : ℕ)
    (hx : x < f.WIDTH) (hy : y < f.HEIGHT)
    (hlen : f.buffer.length = f.WIDTH * f.HEIGHT)
    (ha : detA tri ≤ eps1) :
    covered tri x y = false ∧ (rasterize tri f).getPixel x y = f.getPixel x y := by
  have hcov : covered tri x y = false := by
    unfold covered zeroArea
    simp [ha]
  refine ⟨hcov, ?_⟩
  rw [getPixel_rasterize tri f hx hy hlen]
  simp [hcov]

/-- Witness for the amended C3 at `triDeg` on a 2×2 frame. -/
theorem degenerate_pixel_skipped_witness :
    detA triDeg ≤ eps1 ∧
    (covered triDeg 0 0 = false ∧
      (rasterize triDeg (Frame.create 2 2 ⟨0, 0, 0⟩)).getPixel 0 0 =
        (Frame.create 2 2 ⟨0, 0, 0⟩).getPixel 0 0) := by
  have ha : detA triDeg ≤ eps1 := by
    norm_num [detA, triU, triV, triN, pixS, pixR, pix, rayDir, cross, dot, eps1,
      triDeg, vec3.sub_def]
  exact ⟨ha, degenerate_pixel_skipped triDeg (Frame.create 2 2 ⟨0, 0, 0⟩) 0 0
    (by decide) (by decide) rfl ha⟩

/-! ## C4 -/

/-- C4 (code behavior at the failing input): with a NaN in `vertices[0].x`,
every comparison in the coverage test evaluates false (IEEE NaN semantics), so
the guard `!(zeroArea || offAlpha || offBeta || offGamma || d <= 0.1)` passes
and pixel `(0,0)` is classified covered — the framebuffer does NOT retain the
fill color, contradicting the claim that NaN inputs yield no coverage. -/
theorem nan_triangle_covered : coveredF nanTri 0 0 = true := by decide

/-! ## C5 -/

/-- C5: a triangle with zero projected area — z-component of `u × v` equal to
zero, as happens when two vertices coincide or all three are equal — covers no
pixel, and after rasterization every in-range pixel of a freshly created frame
still holds the fill color. -/
theorem zero_area_no_coverage (tri : Triangle) (W H : ℕ) (fill : vec3) (x y : ℕ)
    (harea : (cross (triU tri) (triV tri)).z = 0) (hx : x < W) (hy : y < H) :
    covered tri x y = false ∧
      (rasterize tri (Frame.create W H fill)).getPixel x y = fill := by
  have hdet : detA tri = 0 := by
    rw [detA_eq_neg_crossZ, harea, neg_zero]
  have hle : detA tri ≤ eps1 := by
    rw [hdet]; norm_num [eps1]
  have hcov : covered tri x y = false := by
    unfold covered zeroArea
    simp [hle]
  refine ⟨hcov, ?_⟩
  rw [getPixel_rasterize tri (Frame.create W H fill) hx hy
    (by rw [Frame.create_length]; rfl)]
  simp only [hcov, Bool.false_eq_true, if_false]
  exact Frame.getPixel_create W H fill (pixelIndex_lt hx hy)

/-- Witness for C5: the degenerate triangle `triDeg` (two identical vertices)
on a 2×2 frame leaves pixel `(0,0)` at the fill color. -/
theorem zero_area_no_coverage_witness :
    (cross (triU triDeg) (triV triDeg)).z = 0 ∧
    (covered triDeg 1 0 = false ∧
      (rasterize triDeg (Frame.create 2 2 ⟨0, 0, 0⟩)).getPixel 1 0 = ⟨0, 0, 0⟩) := by
  have harea : (cross (triU triDeg) (triV triDeg)).z = 0 := by
    norm_num [triU, triV, cross, triDeg, vec3.sub_def]
  exact ⟨harea, zero_area_no_coverage triDeg 2 2 ⟨0, 0, 0⟩ 1 0 harea
    (by decide) (by decide)⟩

/-! ## C6 -/

/-- C6: every pixel not classified as covered is never written: after
rasterization into a freshly created frame it still holds the fill color the
framebuffer was initialized with. -/
theorem uncovered_pixel_retains_fill (tri : Triangle) (W H : ℕ) (fill : vec3) (x y : ℕ)
    (hcov : covered tri x y = false) (hx : x < W) (hy : y < H) :
    (rasterize tri (Frame.create W H fill)).getPixel x y = fill := by
  rw [getPixel_rasterize tri (Frame.create W H fill) hx hy
    (by rw [Frame.create_length]; rfl)]
  simp only [hcov, Bool.false_eq_true, if_false]
  exact Frame.getPixel_create W H fill (pixelIndex_lt hx hy)

/-- Witness for C6: pixel `(3,0)` of a 4×4 frame lies outside `triW`
(its α weight is −1/2 < −1e-10), is not covered, and keeps the fill color. -/
theorem uncovered_pixel_retains_fill_witness :
    covered triW 3 0 = false ∧
    (rasterize triW (Frame.create 4 4 ⟨7, 8, 9⟩)).getPixel 3 0 = ⟨7, 8, 9⟩ := by
  have hcov : covered triW 3 0 = false := by
    norm_num [covered, zeroArea, offAlpha, offBeta, offGamma, detA, baryAlpha, baryBeta,
      baryGamma, rayD, triU, triV, triN, pixS, pixR, pix, rayDir, cross, dot, eps1, eps2,
      triW, vec3.sub_def]
  exact ⟨hcov, uncovered_pixel_retains_fill triW 4 4 ⟨7, 8, 9⟩ 3 0 hcov
    (by decide) (by decide)⟩

/-! ## C9 -/

/-- C9: for in-range coordinates, `getPixel` immediately after
`setPixel (x, y, c)` returns `c` at `(x, y)`, and every other in-range
coordinate pair reads the same value as before the write. -/
theorem setPixel_getPixel_roundtrip (f : Frame) (x y x' y' : ℕ) (c : vec3)
    (hx : x < f.WIDTH) (hy : y < f.HEIGHT) (hx' : x' < f.WIDTH) (hy' : y' < f.HEIGHT)
    (hlen : f.buffer.length = f.WIDTH * f.HEIGHT) :
    (f.setPixel x y c).getPixel x y = c ∧
      ((x', y') ≠ (x, y) → (f.setPixel x y c).getPixel x' y' = f.getPixel x' y') := by
  refine ⟨Frame.getPixel_setPixel_self f x y c (by rw [hlen]; exact pixelIndex_lt hx hy), ?_⟩
  intro hne
  refine Frame.getPixel_setPixel_ne f c hx hx' ?_
  intro hc
  exact hne (by rw [hc.1, hc.2])

/-- Witness for C9 on a 2×2 frame: write `(0,1)`, read it back, and check
`(1,0)` is unchanged. -/
theorem setPixel_getPixel_roundtrip_witness :
    ((Frame.create 2 2 ⟨0, 0, 0⟩).setPixel 0 1 ⟨1, 2, 3⟩).getPixel 0 1 = ⟨1, 2, 3⟩ ∧
      ((1, 0) ≠ ((0 : ℕ), (1 : ℕ)) →
        ((Frame.create 2 2 ⟨0, 0, 0⟩).setPixel 0 1 ⟨1, 2, 3⟩).getPixel 1 0 =
          (Frame.create 2 2 ⟨0, 0, 0⟩).getPixel 1 0) :=
  setPixel_getPixel_roundtrip (Frame.create 2 2 ⟨0, 0, 0⟩) 0 1 1 0 ⟨1, 2, 3⟩
    (by decide) (by decide) (by decide) (by decide) rfl

/-! ## C10 -/

/-- C10: every coordinate pair at which the raster loop calls `setPixel` or at
which `writeBuffer` calls `getPixel` produces a flat index `x + y·WIDTH`
strictly below the buffer size `WIDTH·HEIGHT`, so the unchecked indexing never
goes out of bounds in this program. -/
theorem program_accesses_in_bounds (W H : ℕ) (fill : vec3) (x y : ℕ)
    (h : (x, y) ∈ rasterAccesses W H ∨ (x, y) ∈ writeAccesses W H) :
    x + y * (Frame.create W H fill).WIDTH < (Frame.create W H fill).buffer.length := by
  have hxy : x < W ∧ y < H := by
    rcases h with h | h
    · simp only [rasterAccesses, List.mem_flatMap, List.mem_map, List.mem_range] at h
      obtain ⟨yy, hyy, xx, hxx, hpair⟩ := h
      obtain ⟨h1, h2⟩ := Prod.mk.injEq .. ▸ hpair
      exact ⟨h1 ▸ hxx, h2 ▸ hyy⟩
    · simp only [writeAccesses, List.mem_flatMap, List.mem_reverse, List.mem_map,
        List.mem_range] at h
      obtain ⟨yy, hyy, xx, hxx, hpair⟩ := h
      obtain ⟨h1, h2⟩ := Prod.mk.injEq .. ▸ hpair
      exact ⟨h1 ▸ hxx, h2 ▸ hyy⟩
  rw [Frame.create_WIDTH, Frame.create_length]
  exact pixelIndex_lt hxy.1 hxy.2

/-- Witness for C10: pixel `(1,1)` is visited by both loops on a 2×2 frame and
its flat index is in bounds. -/
theorem program_accesses_in_bounds_witness :
    1 + 1 * (Frame.create 2 2 ⟨0, 0, 0⟩).WIDTH <
      (Frame.create 2 2 ⟨0, 0, 0⟩).buffer.length :=
  program_accesses_in_bounds 2 2 ⟨0, 0, 0⟩ 1 1 (Or.inl (by decide))

/-! ## C7 -/

/-- Concatenation of a list of already-terminated output lines. -/
def concatLines : List String → String
  | [] => ""
  | l :: ls => l ++ concatLines ls

theorem concatLines_append (l1 l2 : List String) :
    concatLines (l1 ++ l2) = concatLines l1 ++ concatLines l2 := by
  induction l1 with
  | nil => simp [concatLines]
  | cons a as ih => simp [concatLines, ih, String.append_assoc]

/-- One scanline of `writeBuffer`'s stream equals the accumulator followed by
that scanline's newline-terminated pixel lines. -/
theorem writeRow_stream (f : Frame) (y : ℕ) (xs : List ℕ) :
    ∀ acc : String,
      xs.foldl (fun acc2 x =>
        acc2 ++ toString (channelOut (f.getPixel x y).x) ++ " "
             ++ toString (channelOut (f.getPixel x y).y) ++ " "
             ++ toString (channelOut (f.getPixel x y).z) ++ "\n") acc =
      acc ++ concatLines (xs.map (fun x =>
        (toString (truncToInt ((f.getPixel x y).x * 255)) ++ " " ++
         toString (truncToInt ((f.getPixel x y).y * 255)) ++ " " ++
         toString (truncToInt ((f.getPixel x y).z * 255))) ++ "\n")) := by
  induction xs with
  | nil => intro acc; simp [concatLines]
  | cons z zs ih =>
    intro acc
    rw [List.foldl_cons, List.map_cons, ih]
    simp [concatLines, channelOut, String.append_assoc]

/-- The stacked scanlines of `writeBuffer`'s stream equal the accumulator
followed by the concatenation of each scanline's pixel lines. -/
theorem writeRows_stream (f : Frame) (ys : List ℕ) :
    ∀ acc : String,
      ys.foldl (fun acc y => (List.range f.WIDTH).foldl
        (fun acc2 x =>
          acc2 ++ toString (channelOut (f.getPixel x y).x) ++ " "
               ++ toString (channelOut (f.getPixel x y).y) ++ " "
               ++ toString (channelOut (f.getPixel x y).z) ++ "\n") acc) acc =
      acc ++ concatLines (ys.map (fun y =>
        concatLines ((List.range f.WIDTH).map (fun x =>
          (toString (truncToInt ((f.getPixel x y).x * 255)) ++ " " ++
           toString (truncToInt ((f.getPixel x y).y * 255)) ++ " " ++
           toString (truncToInt ((f.getPixel x y).z * 255))) ++ "\n")))) := by
  induction ys with
  | nil => intro acc; simp [concatLines]
  | cons z zs ih =>
    intro acc
    rw [List.foldl_cons, List.map_cons, writeRow_stream, ih]
    simp [concatLines, String.append_assoc]

/-- Concatenating the `g`-image of a flattened list of lists equals
concatenating each inner list's `g`-image. -/
theorem concatLines_flatten_map (g : String → String) (L : List (List String)) :
    concatLines ((L.flatten).map g) =
      concatLines (L.map (fun r => concatLines (r.map g))) := by
  induction L with
  | nil => simp [concatLines]
  | cons r rs ih =>
    rw [List.flatten_cons, List.map_append, concatLines_append, ih]
    simp [concatLines]

/-- C7: the character stream `writeBuffer` emits is exactly the claimed image:
a header line `P3 <width> <height> 255`, then the pixel triples in scanline
order from row `height−1` down to row `0`, left to right, each channel the
stored component multiplied by 255 and truncated toward zero, unclamped — each
line terminated by a newline. -/
theorem writeBuffer_eq_spec (f : Frame) :
    f.writeBuffer = concatLines ((writeImageSpec f).map (fun l => l ++ "\n")) := by
  unfold Frame.writeBuffer writeImageSpec
  rw [writeRows_stream]
  simp only [List.map_cons, concatLines]
  rw [concatLines_flatten_map (fun l => l ++ "\n")]
  simp [concatLines, List.map_map, String.append_assoc, Function.comp_def]
